import Mathlib

/-!
Shallow embedding of the generational handle container from the repository.

Two variants exist in the source:
* `SIV.StableIndexVec` — the generation-checking variant (`src/lib.rs`,
  `StableIndexVec<T>` with handle type `SIVKey`);
* `FC.FastContainer` — the non-checking variant (`src/main.rs`,
  `FastContainer<T>` with bare `usize` handles).

Rust `Vec<T>` is modelled as `List`, `Vec::get` as `l[i]?`, unchecked
indexing `l[i]` as `l.getD i 0` (the invariants proved below show every
unchecked access is in bounds on reachable states, so the default is never
consulted there), `Vec::swap` as `swapList`, `Vec::push` as `l ++ [x]` and
`Vec::pop` as the pair `(l[l.length - 1]?, l.dropLast)`.
-/

/-- Model of `Vec::swap`: exchanges the entries at `i` and `j`.
Out of bounds it is the identity (Rust would panic there; the
panic-freedom results below show this never happens on reachable states). -/
def swapList (l : List α) (i j : Nat) : List α :=
  match l[i]?, l[j]? with
  | some a, some b => (l.set i b).set j a
  | _, _ => l

namespace SIV

/-- Handle type of the checking variant: `SIVKey { id, generation }`. -/
structure SIVKey where
  id : Nat
  generation : Nat
deriving DecidableEq

/-- The checking variant `StableIndexVec<T>` with its four parallel arrays. -/
structure StableIndexVec (T : Type) where
  index : List Nat
  generations : List Nat
  ids : List Nat
  data : List T
deriving DecidableEq

variable {T : Type}

/-- `StableIndexVec::new` — the empty container. -/
def empty (T : Type) : StableIndexVec T := ⟨[], [], [], []⟩

/-- `StableIndexVec::data_index`: looks up `index[key.id]`, then checks the
generation stored at that dense position against `key.generation`. -/
def data_index (s : StableIndexVec T) (key : SIVKey) : Option Nat :=
  match s.index[key.id]? with
  | none => none
  | some di =>
    match s.generations[di]? with
    | some g => if g = key.generation then some di else none
    | none => none

/-- `StableIndexVec::get`. -/
def get (s : StableIndexVec T) (key : SIVKey) : Option T :=
  match data_index s key with
  | none => none
  | some di => s.data[di]?

/-- `StableIndexVec::len`. -/
def len (s : StableIndexVec T) : Nat := s.data.length

/-- The defensive assertion at the start of `StableIndexVec::add`:
`data.len() <= index.len()`. -/
def addAssertOk (s : StableIndexVec T) : Prop :=
  s.data.length ≤ s.index.length

/-- `StableIndexVec::add` (the behaviour past the assertion;
`addAssertOk` is proved to hold on every reachable state). -/
def add (s : StableIndexVec T) (el : T) : SIVKey × StableIndexVec T :=
  let index_len := s.index.length
  let data_len := s.data.length
  let s1 : StableIndexVec T :=
    if data_len = index_len then
      { s with index := s.index ++ [data_len]
             , generations := s.generations ++ [0]
             , ids := s.ids ++ [index_len] }
    else
      { s with generations :=
          s.generations.set data_len (s.generations.getD data_len 0 + 1) }
  let s2 : StableIndexVec T := { s1 with data := s1.data ++ [el] }
  (⟨s2.ids.getD data_len 0, s2.generations.getD data_len 0⟩, s2)

/-- `StableIndexVec::remove`: validate like `get`, then swap-remove. -/
def remove (s : StableIndexVec T) (key : SIVKey) : Option T × StableIndexVec T :=
  match data_index s key with
  | none => (none, s)
  | some di =>
    match s.data[di]? with
    | none => (none, s)
    | some _ =>
      let last := s.data.length - 1
      let s1 : StableIndexVec T :=
        if di < last then
          let ids1 := swapList s.ids di last
          { index := (s.index.set (ids1.getD di 0) di).set (ids1.getD last 0) last
          , generations := swapList s.generations di last
          , ids := ids1
          , data := swapList s.data di last }
        else s
      (s1.data[s1.data.length - 1]?, { s1 with data := s1.data.dropLast })

/-- The full sequence produced by `StableIndexVec::iter` / `Iter::next`:
position `pos` yields the key `(ids[pos], generations[ids[pos]])` and the
element `data[pos]` (always in range, hence the `some`). -/
def iterPairs (s : StableIndexVec T) : List (SIVKey × Option T) :=
  (List.range s.data.length).map fun pos =>
    let i := s.ids.getD pos 0
    (⟨i, s.generations.getD i 0⟩, s.data[pos]?)

/-- `keys()`: the `iter()` traversal projected to the handles. -/
def iterKeys (s : StableIndexVec T) : List SIVKey :=
  (iterPairs s).map Prod.fst

/-- A public operation on the container (`get` and `iterate` take `&self`
and leave the state unchanged). -/
inductive Op (T : Type) where
  | add (el : T)
  | remove (key : SIVKey)
  | get (key : SIVKey)
  | iterate
deriving DecidableEq

/-- State after one public operation. -/
def runOp (s : StableIndexVec T) : Op T → StableIndexVec T
  | .add el => (add s el).2
  | .remove k => (remove s k).2
  | .get _ => s
  | .iterate => s

/-- State after a sequence of public operations. -/
def runOps (s : StableIndexVec T) (ops : List (Op T)) : StableIndexVec T :=
  ops.foldl runOp s

/-- A state is reachable if some sequence of public operations produces it
from the empty container. -/
def Reachable (s : StableIndexVec T) : Prop :=
  ∃ ops : List (Op T), runOps (empty T) ops = s

/-- The internal well-formedness invariant: the three bookkeeping arrays
have equal length `L`, the dense array is no longer than `L`, `ids` takes
values below `L`, and `index` inverts `ids` (`index[ids[i]] = i`). -/
def WF (s : StableIndexVec T) : Prop :=
  s.index.length = s.ids.length ∧
  s.generations.length = s.ids.length ∧
  s.data.length ≤ s.ids.length ∧
  (∀ i, i < s.ids.length → s.ids.getD i 0 < s.ids.length) ∧
  (∀ i, i < s.ids.length → s.index.getD (s.ids.getD i 0) 0 = i)

instance (s : StableIndexVec T) : Decidable (WF s) := by
  unfold WF; infer_instance

/-- The hypothetical variant of `remove` discussed by the spec: identical
to `remove` except that it omits the second `slot_to_data` fix-up
(`self.index[self.ids[last_index]] = last_index`). -/
def removeNoFix (s : StableIndexVec T) (key : SIVKey) : Option T × StableIndexVec T :=
  match data_index s key with
  | none => (none, s)
  | some di =>
    match s.data[di]? with
    | none => (none, s)
    | some _ =>
      let last := s.data.length - 1
      let s1 : StableIndexVec T :=
        if di < last then
          let ids1 := swapList s.ids di last
          { index := s.index.set (ids1.getD di 0) di
          , generations := swapList s.generations di last
          , ids := ids1
          , data := swapList s.data di last }
        else s
      (s1.data[s1.data.length - 1]?, { s1 with data := s1.data.dropLast })

/-- Panic-freedom of `StableIndexVec::remove` at state `s` with key `k`:
when both validation guards pass, the length subtraction cannot underflow
and every unchecked index operation (`Vec::swap` twice over `generations`,
`ids` and `data`, and the two `index[...]` write-backs) is in bounds. -/
def removeOkB (s : StableIndexVec T) (k : SIVKey) : Bool :=
  match data_index s k with
  | none => true
  | some di =>
    match s.data[di]? with
    | none => true
    | some _ =>
      let last := s.data.length - 1
      decide (0 < s.data.length) &&
      (if di < last then
        decide (di < s.data.length) && decide (last < s.data.length) &&
        decide (di < s.generations.length) && decide (last < s.generations.length) &&
        decide (di < s.ids.length) && decide (last < s.ids.length) &&
        decide ((swapList s.ids di last).getD di 0 < s.index.length) &&
        decide ((swapList s.ids di last).getD last 0 < s.index.length)
      else true)

/-- A slot is dead when its `index` entry points at or past the live
region of the dense array. -/
def Dead (s : StableIndexVec T) (slot : Nat) : Prop :=
  s.data.length ≤ s.index.getD slot 0

/-- The generation currently recorded for `slot` (the `generations` array
is co-indexed with dense positions, so the slot's counter lives at
position `index[slot]`). -/
def slotGen (s : StableIndexVec T) (slot : Nat) : Nat :=
  s.generations.getD (s.index.getD slot 0) 0

/-- `key` is permanently stale in `s`: its slot is allocated and either
dead with a recorded generation at least `key.generation`, or its recorded
generation has already moved strictly past `key.generation`. -/
def StaleFor (s : StableIndexVec T) (key : SIVKey) : Prop :=
  key.id < s.ids.length ∧
  ((Dead s key.id ∧ key.generation ≤ slotGen s key.id) ∨
    key.generation < slotGen s key.id)

instance (s : StableIndexVec T) (key : SIVKey) : Decidable (StaleFor s key) := by
  unfold StaleFor Dead slotGen; infer_instance

end SIV


namespace FC

variable {T : Type}

/-- The non-checking variant `FastContainer<T>` with its three
parallel arrays; handles are bare slot numbers. -/
structure FastContainer (T : Type) where
  index : List Nat
  ids : List Nat
  data : List T
deriving DecidableEq

/-- `FastContainer::default` — the empty container. -/
def empty (T : Type) : FastContainer T := ⟨[], [], []⟩

/-- `FastContainer::get`. -/
def get (s : FastContainer T) (idx : Nat) : Option T :=
  match s.index[idx]? with
  | none => none
  | some di => s.data[di]?

/-- The defensive assertion at the start of `FastContainer::add`. -/
def addAssertOk (s : FastContainer T) : Prop :=
  s.data.length ≤ s.index.length

/-- `FastContainer::add` (the behaviour past the assertion). -/
def add (s : FastContainer T) (el : T) : Nat × FastContainer T :=
  let index_len := s.index.length
  let data_len := s.data.length
  let s1 : FastContainer T :=
    if data_len = index_len then
      { s with index := s.index ++ [index_len]
             , ids := s.ids ++ [index_len] }
    else s
  let s2 : FastContainer T := { s1 with data := s1.data ++ [el] }
  (s2.ids.getD data_len 0, s2)

/-- `FastContainer::remove`. -/
def remove (s : FastContainer T) (idx : Nat) : Option T × FastContainer T :=
  match s.index[idx]? with
  | none => (none, s)
  | some di =>
    match s.data[di]? with
    | none => (none, s)
    | some _ =>
      let last := s.data.length - 1
      let s1 : FastContainer T :=
        if di < last then
          let ids1 := swapList s.ids di last
          { index := (s.index.set (ids1.getD di 0) di).set (ids1.getD last 0) last
          , ids := ids1
          , data := swapList s.data di last }
        else s
      (s1.data[s1.data.length - 1]?, { s1 with data := s1.data.dropLast })

/-- A public operation on the non-checking container. -/
inductive Op (T : Type) where
  | add (el : T)
  | remove (idx : Nat)
  | get (idx : Nat)
deriving DecidableEq

/-- State after one public operation. -/
def runOp (s : FastContainer T) : Op T → FastContainer T
  | .add el => (add s el).2
  | .remove k => (remove s k).2
  | .get _ => s

/-- State after a sequence of public operations. -/
def runOps (s : FastContainer T) (ops : List (Op T)) : FastContainer T :=
  ops.foldl runOp s

/-- A state is reachable if some sequence of public operations produces it
from the empty container. -/
def Reachable (s : FastContainer T) : Prop :=
  ∃ ops : List (Op T), runOps (empty T) ops = s

/-- Well-formedness: `index` and `ids` have equal length `L`, the dense
array is no longer than `L`, `ids` takes values below `L`, and `index`
inverts `ids`. -/
def WF (s : FastContainer T) : Prop :=
  s.index.length = s.ids.length ∧
  s.data.length ≤ s.ids.length ∧
  (∀ i, i < s.ids.length → s.ids.getD i 0 < s.ids.length) ∧
  (∀ i, i < s.ids.length → s.index.getD (s.ids.getD i 0) 0 = i)

instance (s : FastContainer T) : Decidable (WF s) := by
  unfold WF; infer_instance

/-- Panic-freedom of `FastContainer::remove` at state `s` with index `k`:
when both validation guards pass, the length subtraction cannot underflow
and every unchecked index operation is in bounds. -/
def removeOkB (s : FastContainer T) (k : Nat) : Bool :=
  match s.index[k]? with
  | none => true
  | some di =>
    match s.data[di]? with
    | none => true
    | some _ =>
      let last := s.data.length - 1
      decide (0 < s.data.length) &&
      (if di < last then
        decide (di < s.data.length) && decide (last < s.data.length) &&
        decide (di < s.ids.length) && decide (last < s.ids.length) &&
        decide ((swapList s.ids di last).getD di 0 < s.index.length) &&
        decide ((swapList s.ids di last).getD last 0 < s.index.length)
      else true)

end FC

namespace Scenario

/-- The container of the staleness-rejection scenario after
`add 1; add 2; add 3; add 4` (handles `(0,0)`, `(1,0)`, `(2,0)`, `(3,0)`). -/
def c6s0 : SIV.StableIndexVec Nat :=
  SIV.runOps (SIV.empty Nat) [.add 1, .add 2, .add 3, .add 4]

/-- The same container after additionally removing `h2 = (1,0)`. -/
def c6s1 : SIV.StableIndexVec Nat := (SIV.remove c6s0 ⟨1, 0⟩).2

/-- The same container after additionally removing `h4 = (3,0)`. -/
def c6s2 : SIV.StableIndexVec Nat := (SIV.remove c6s1 ⟨3, 0⟩).2

/-- Adding a fifth element to the twice-shrunk container. -/
def c6add5 : SIV.SIVKey × SIV.StableIndexVec Nat := SIV.add c6s2 5

/-- Adding a sixth element after the fifth. -/
def c6add6 : SIV.SIVKey × SIV.StableIndexVec Nat := SIV.add c6add5.2 6

/-- A state with two freed slot rows: `add 10; add 20; add 30`, then
remove the first and second elements. Slots `0` and `1` are both freed;
used to test `add`'s slot-reuse policy. -/
def c7state : SIV.StableIndexVec Nat :=
  SIV.runOps (SIV.empty Nat)
    [.add 10, .add 20, .add 30, .remove ⟨0, 0⟩, .remove ⟨1, 0⟩]

/-- A two-element container used to distinguish `remove` from
`removeNoFix`. -/
def c8state : SIV.StableIndexVec Nat :=
  SIV.runOps (SIV.empty Nat) [.add 1, .add 2]

/-- The container after `add 1; add 2; remove (0,0); add 3`: a removal has
perturbed the dense order, so `ids` is no longer the identity. -/
def c1state : SIV.StableIndexVec Nat :=
  SIV.runOps (SIV.empty Nat) [.add 1, .add 2, .remove ⟨0, 0⟩, .add 3]

/-- A container with zero live elements but one previously-allocated slot
row. -/
def c10state : SIV.StableIndexVec Nat :=
  SIV.runOps (SIV.empty Nat) [.add 1, .remove ⟨0, 0⟩]

/-- The non-checking counterpart of `c10state`. -/
def c10fast : FC.FastContainer Nat :=
  FC.runOps (FC.empty Nat) [.add 1, .remove 0]

end Scenario

/-! ### Generic list lemmas -/

theorem lt_length_of_getElem? {l : List α} {i : Nat} {a : α} (h : l[i]? = some a) :
    i < l.length :=
  (List.getElem?_eq_some_iff.mp h).1

theorem getD_eq_of_getElem? {l : List α} {i : Nat} {a : α} (d : α) (h : l[i]? = some a) :
    l.getD i d = a := by
  simp [List.getD_eq_getElem?_getD, h]

theorem getElem?_eq_some_getD {l : List α} {i : Nat} (d : α) (h : i < l.length) :
    l[i]? = some (l.getD i d) := by
  rw [List.getElem?_eq_getElem h]
  simp [List.getD_eq_getElem?_getD, List.getElem?_eq_getElem h]

theorem getD_append_left {l l2 : List α} {i : Nat} (d : α) (h : i < l.length) :
    (l ++ l2).getD i d = l.getD i d := by
  simp [List.getD_eq_getElem?_getD, List.getElem?_append_left h]

theorem getD_concat_length {l : List α} (a d : α) :
    (l ++ [a]).getD l.length d = a := by
  simp [List.getD_eq_getElem?_getD, List.getElem?_concat_length]

theorem getD_set_self {l : List α} {i : Nat} (a d : α) (h : i < l.length) :
    (l.set i a).getD i d = a := by
  simp [List.getD_eq_getElem?_getD, List.getElem?_set_self h]

theorem getD_set_ne {l : List α} {i j : Nat} (a d : α) (h : i ≠ j) :
    (l.set i a).getD j d = l.getD j d := by
  simp [List.getD_eq_getElem?_getD, List.getElem?_set_ne h]

theorem swapList_length (l : List α) (i j : Nat) :
    (swapList l i j).length = l.length := by
  unfold swapList
  cases hi : l[i]? <;> cases hj : l[j]? <;> simp

theorem swapList_getElem?_fst {l : List α} {i j : Nat}
    (hi : i < l.length) (hj : j < l.length) :
    (swapList l i j)[i]? = l[j]? := by
  unfold swapList
  rw [List.getElem?_eq_getElem hi, List.getElem?_eq_getElem hj]
  by_cases hij : i = j
  · subst hij
    rw [List.getElem?_set_self (by simpa using hi)]
  · rw [List.getElem?_set_ne (fun h => hij h.symm),
      List.getElem?_set_self (by simpa using hi)]

theorem swapList_getElem?_snd {l : List α} {i j : Nat}
    (hi : i < l.length) (hj : j < l.length) :
    (swapList l i j)[j]? = l[i]? := by
  unfold swapList
  rw [List.getElem?_eq_getElem hi, List.getElem?_eq_getElem hj]
  rw [List.getElem?_set_self (by simpa using hj)]

theorem swapList_getElem?_other {l : List α} {i j k : Nat}
    (hki : k ≠ i) (hkj : k ≠ j) :
    (swapList l i j)[k]? = l[k]? := by
  unfold swapList
  cases hi : l[i]? <;> cases hj : l[j]? <;> try rfl
  rw [List.getElem?_set_ne (fun h => hkj h.symm),
    List.getElem?_set_ne (fun h => hki h.symm)]

theorem swapList_getD_fst {l : List α} {i j : Nat} (d : α)
    (hi : i < l.length) (hj : j < l.length) :
    (swapList l i j).getD i d = l.getD j d := by
  simp [List.getD_eq_getElem?_getD, swapList_getElem?_fst hi hj]

theorem swapList_getD_snd {l : List α} {i j : Nat} (d : α)
    (hi : i < l.length) (hj : j < l.length) :
    (swapList l i j).getD j d = l.getD i d := by
  simp [List.getD_eq_getElem?_getD, swapList_getElem?_snd hi hj]

theorem swapList_getD_other {l : List α} {i j k : Nat} (d : α)
    (hki : k ≠ i) (hkj : k ≠ j) :
    (swapList l i j).getD k d = l.getD k d := by
  simp [List.getD_eq_getElem?_getD, swapList_getElem?_other hki hkj]

theorem getElem?_dropLast_lt {l : List α} {i : Nat} (h : i < l.length - 1) :
    l.dropLast[i]? = l[i]? := by
  rw [List.getElem?_dropLast]
  simp [h]

theorem getElem?_dropLast_ge {l : List α} {i : Nat} (h : l.length - 1 ≤ i) :
    l.dropLast[i]? = none := by
  rw [List.getElem?_dropLast]
  simp [Nat.not_lt.mpr h]

/-! ### Structural lemmas for the checking variant -/

namespace SIV

variable {T : Type} {s : StableIndexVec T} {k : SIVKey} {v el : T} {di : Nat}

theorem data_index_eq_some_iff :
    data_index s k = some di ↔
      s.index[k.id]? = some di ∧ s.generations[di]? = some k.generation := by
  unfold data_index
  constructor
  · intro h
    cases h1 : s.index[k.id]? with
    | none => simp only [h1] at h; cases h
    | some d =>
      simp only [h1] at h
      cases h2 : s.generations[d]? with
      | none => simp only [h2] at h; cases h
      | some g =>
        simp only [h2] at h
        by_cases hg : g = k.generation
        · simp only [if_pos hg] at h
          cases h
          exact ⟨rfl, by rw [← hg]; exact h2⟩
        · simp only [if_neg hg] at h; cases h
  · rintro ⟨h1, h2⟩
    rw [h1]
    simp [h2]

theorem get_eq_some_iff :
    get s k = some v ↔ ∃ di, data_index s k = some di ∧ s.data[di]? = some v := by
  unfold get
  cases h : data_index s k <;> simp [h]

theorem get_eq_none_iff :
    get s k = none ↔ ∀ di, data_index s k = some di → s.data[di]? = none := by
  unfold get
  cases h : data_index s k <;> simp [h]

theorem remove_of_dataIndex_none (h : data_index s k = none) :
    remove s k = (none, s) := by
  unfold remove; simp only [h]

theorem remove_of_data_none (h1 : data_index s k = some di)
    (h2 : s.data[di]? = none) : remove s k = (none, s) := by
  unfold remove; simp only [h1, h2]

theorem remove_valid_swap (h1 : data_index s k = some di) (h2 : s.data[di]? = some v)
    (hlt : di < s.data.length - 1) :
    remove s k = (some v,
      { index := (s.index.set ((swapList s.ids di (s.data.length - 1)).getD di 0) di).set
            ((swapList s.ids di (s.data.length - 1)).getD (s.data.length - 1) 0)
            (s.data.length - 1)
      , generations := swapList s.generations di (s.data.length - 1)
      , ids := swapList s.ids di (s.data.length - 1)
      , data := (swapList s.data di (s.data.length - 1)).dropLast }) := by
  have hdi : di < s.data.length := lt_length_of_getElem? h2
  have hlast : s.data.length - 1 < s.data.length :=
    Nat.sub_lt (Nat.lt_of_le_of_lt (Nat.zero_le di) hdi) Nat.one_pos
  unfold remove
  simp only [h1, h2, swapList_length, if_pos hlt]
  rw [swapList_getElem?_snd hdi hlast, h2]

theorem remove_valid_last (h1 : data_index s k = some di) (h2 : s.data[di]? = some v)
    (hge : ¬ di < s.data.length - 1) :
    remove s k = (some v, { s with data := s.data.dropLast }) := by
  have hdi : di < s.data.length := lt_length_of_getElem? h2
  have hdieq : di = s.data.length - 1 := by omega
  unfold remove
  simp only [h1, h2, if_neg hge]
  rw [← hdieq, h2]

theorem remove_fst : (remove s k).1 = get s k := by
  cases h1 : data_index s k with
  | none => rw [remove_of_dataIndex_none h1]; unfold get; simp only [h1]
  | some di =>
    cases h2 : s.data[di]? with
    | none => rw [remove_of_data_none h1 h2]; unfold get; simp only [h1, h2]
    | some v =>
      have hget : get s k = some v := by unfold get; simp only [h1, h2]
      rw [hget]
      by_cases hlt : di < s.data.length - 1
      · rw [remove_valid_swap h1 h2 hlt]
      · rw [remove_valid_last h1 h2 hlt]

theorem remove_of_get_none (h : get s k = none) : remove s k = (none, s) := by
  cases h1 : data_index s k with
  | none => exact remove_of_dataIndex_none h1
  | some di =>
    cases h2 : s.data[di]? with
    | none => exact remove_of_data_none h1 h2
    | some v =>
      exfalso
      have hs : get s k = some v := by unfold get; simp only [h1, h2]
      rw [h] at hs; cases hs

theorem WF_empty : WF (empty T) := by
  refine ⟨rfl, rfl, Nat.le_refl 0, ?_, ?_⟩ <;> intro i hi <;> exact absurd hi (by simp [empty])

theorem ids_inj (h : WF s) {i j : Nat} (hi : i < s.ids.length) (hj : j < s.ids.length)
    (he : s.ids.getD i 0 = s.ids.getD j 0) : i = j := by
  calc i = s.index.getD (s.ids.getD i 0) 0 := (h.2.2.2.2 i hi).symm
    _ = s.index.getD (s.ids.getD j 0) 0 := by rw [he]
    _ = j := h.2.2.2.2 j hj

theorem index_inv (h : WF s) {slot : Nat} (hs : slot < s.ids.length) :
    s.index.getD slot 0 < s.ids.length ∧ s.ids.getD (s.index.getD slot 0) 0 = slot := by
  have hinj : Function.Injective
      (fun i : Fin s.ids.length =>
        (⟨s.ids.getD i.val 0, h.2.2.2.1 i.val i.isLt⟩ : Fin s.ids.length)) := by
    intro a b hab
    exact Fin.ext (ids_inj h a.isLt b.isLt (congrArg Fin.val hab))
  obtain ⟨i, hi⟩ := Finite.surjective_of_injective hinj ⟨slot, hs⟩
  have hval : s.ids.getD i.val 0 = slot := congrArg Fin.val hi
  have hidx : s.index.getD slot 0 = i.val := by
    rw [← hval]; exact h.2.2.2.2 i.val i.isLt
  exact ⟨by rw [hidx]; exact i.isLt, by rw [hidx, hval]⟩

theorem add_push (hni : s.data.length = s.index.length)
    (hidl : s.ids.length = s.index.length) (hgl : s.generations.length = s.index.length)
    (el : T) :
    add s el = (⟨s.index.length, 0⟩,
      { index := s.index ++ [s.data.length]
      , generations := s.generations ++ [0]
      , ids := s.ids ++ [s.index.length]
      , data := s.data ++ [el] }) := by
  unfold add
  simp only [if_pos hni]
  have hkid : (s.ids ++ [s.index.length]).getD s.data.length 0 = s.index.length := by
    have he : s.data.length = s.ids.length := by rw [hni, hidl]
    rw [he, getD_concat_length]
  have hkgen : (s.generations ++ [0]).getD s.data.length 0 = 0 := by
    have he : s.data.length = s.generations.length := by rw [hni, hgl]
    rw [he, getD_concat_length]
  rw [hkid, hkgen]

theorem add_reuse (hne : ¬ s.data.length = s.index.length)
    (hgen : s.data.length < s.generations.length) (el : T) :
    add s el = (⟨s.ids.getD s.data.length 0, s.generations.getD s.data.length 0 + 1⟩,
      { index := s.index
      , generations :=
          s.generations.set s.data.length (s.generations.getD s.data.length 0 + 1)
      , ids := s.ids
      , data := s.data ++ [el] }) := by
  unfold add
  simp only [if_neg hne]
  rw [getD_set_self _ _ hgen]

theorem WF_add (h : WF s) (el : T) : WF (add s el).2 := by
  have hl1 := h.1
  have hl2 := h.2.1
  have hl3 := h.2.2.1
  have hl4 := h.2.2.2.1
  have hl5 := h.2.2.2.2
  by_cases hni : s.data.length = s.index.length
  · rw [add_push hni (by rw [hl1]) (by rw [hl2, hl1]) el]
    refine ⟨?_, ?_, ?_, ?_, ?_⟩
    · try dsimp only
      simp [hl1]
    · try dsimp only
      simp [hl2]
    · try dsimp only
      simp only [List.length_append, List.length_cons, List.length_nil]; omega
    · intro i hi
      try dsimp only at hi ⊢
      simp only [List.length_append, List.length_cons, List.length_nil] at hi ⊢
      rcases Nat.lt_or_ge i s.ids.length with hlt | hge
      · rw [getD_append_left _ hlt]
        have := hl4 i hlt
        omega
      · have hieq : i = s.ids.length := by omega
        subst hieq
        rw [getD_concat_length]
        omega
    · intro i hi
      try dsimp only at hi ⊢
      simp only [List.length_append, List.length_cons, List.length_nil] at hi
      rcases Nat.lt_or_ge i s.ids.length with hlt | hge
      · rw [getD_append_left _ hlt]
        rw [getD_append_left _ (Nat.lt_of_lt_of_eq (hl4 i hlt) hl1.symm)]
        exact hl5 i hlt
      · have hieq : i = s.ids.length := by omega
        subst hieq
        rw [getD_concat_length, getD_concat_length]
        omega
  · have hlt : s.data.length < s.index.length := by omega
    rw [add_reuse hni (by omega) el]
    refine ⟨hl1, ?_, ?_, hl4, hl5⟩
    · try dsimp only
      simp [hl2]
    · try dsimp only
      simp only [List.length_append, List.length_cons, List.length_nil]
      omega

theorem WF_remove (h : WF s) (k : SIVKey) : WF (remove s k).2 := by
  cases h1 : data_index s k with
  | none => rw [remove_of_dataIndex_none h1]; exact h
  | some di =>
    cases h2 : s.data[di]? with
    | none => rw [remove_of_data_none h1 h2]; exact h
    | some v =>
      have hl1 := h.1
      have hl2 := h.2.1
      have hl3 := h.2.2.1
      have hl4 := h.2.2.2.1
      have hl5 := h.2.2.2.2
      have hdi : di < s.data.length := lt_length_of_getElem? h2
      by_cases hlt : di < s.data.length - 1
      · rw [remove_valid_swap h1 h2 hlt]
        have hdiL : di < s.ids.length := Nat.lt_of_lt_of_le hdi hl3
        have hlastn : s.data.length - 1 < s.data.length := by omega
        have hlastL : s.data.length - 1 < s.ids.length := Nat.lt_of_lt_of_le hlastn hl3
        have hne : di ≠ s.data.length - 1 := by omega
        have hswlen : (swapList s.ids di (s.data.length - 1)).length = s.ids.length :=
          swapList_length _ _ _
        have ha : (swapList s.ids di (s.data.length - 1)).getD di 0 =
            s.ids.getD (s.data.length - 1) 0 := swapList_getD_fst _ hdiL hlastL
        have hb : (swapList s.ids di (s.data.length - 1)).getD (s.data.length - 1) 0 =
            s.ids.getD di 0 := swapList_getD_snd _ hdiL hlastL
        have haL : s.ids.getD (s.data.length - 1) 0 < s.ids.length := hl4 _ hlastL
        have hbL : s.ids.getD di 0 < s.ids.length := hl4 _ hdiL
        have hab : s.ids.getD (s.data.length - 1) 0 ≠ s.ids.getD di 0 :=
          fun he => hne (ids_inj h hdiL hlastL he.symm)
        refine ⟨?_, ?_, ?_, ?_, ?_⟩
        · try dsimp only
          simp [hswlen, hl1]
        · try dsimp only
          simp [swapList_length, hl2, hswlen]
        · try dsimp only
          simp only [List.length_dropLast, swapList_length, hswlen]
          omega
        · intro i hi
          try dsimp only at hi ⊢
          rw [hswlen] at hi ⊢
          by_cases hidi : i = di
          · subst hidi; rw [ha]; exact haL
          · by_cases hilast : i = s.data.length - 1
            · subst hilast; rw [hb]; exact hbL
            · rw [swapList_getD_other _ hidi hilast]
              exact hl4 i hi
        · intro i hi
          try dsimp only at hi ⊢
          rw [hswlen] at hi
          rw [ha, hb]
          by_cases hidi : i = di
          · subst hidi
            rw [ha]
            rw [getD_set_ne _ _ (Ne.symm hab)]
            exact getD_set_self _ _ (Nat.lt_of_lt_of_eq haL hl1.symm)
          · by_cases hilast : i = s.data.length - 1
            · subst hilast
              rw [hb]
              refine getD_set_self _ _ ?_
              rw [List.length_set]
              exact Nat.lt_of_lt_of_eq hbL hl1.symm
            · rw [swapList_getD_other _ hidi hilast]
              have hCA : s.ids.getD i 0 ≠ s.ids.getD (s.data.length - 1) 0 :=
                fun he => hilast (ids_inj h hi hlastL he)
              have hCB : s.ids.getD i 0 ≠ s.ids.getD di 0 :=
                fun he => hidi (ids_inj h hi hdiL he)
              rw [getD_set_ne _ _ (Ne.symm hCB), getD_set_ne _ _ (Ne.symm hCA)]
              exact hl5 i hi
      · rw [remove_valid_last h1 h2 hlt]
        refine ⟨hl1, hl2, ?_, hl4, hl5⟩
        try dsimp only
        simp only [List.length_dropLast]
        omega

theorem WF_runOp (h : WF s) (op : Op T) : WF (runOp s op) := by
  cases op with
  | add el => exact WF_add h el
  | remove k => exact WF_remove h k
  | get k => exact h
  | iterate => exact h

theorem WF_runOps (h : WF s) (ops : List (Op T)) : WF (runOps s ops) := by
  induction ops generalizing s with
  | nil => exact h
  | cons op rest ih => exact ih (WF_runOp h op)

theorem reachable_WF (h : Reachable s) : WF s := by
  obtain ⟨ops, rfl⟩ := h
  exact WF_runOps WF_empty ops

theorem key_eq_of (x y : SIVKey) (h1 : x.id = y.id) (h2 : x.generation = y.generation) :
    x = y := by
  cases x; cases y; cases h1; cases h2; rfl

theorem live_slot_eq (hWF : WF s) {p : Nat} (hidx : s.index[k.id]? = some p) :
    s.ids.getD p 0 = k.id := by
  have hkid : k.id < s.ids.length := by
    have hk := lt_length_of_getElem? hidx
    rwa [hWF.1] at hk
  have h2 := (index_inv hWF hkid).2
  rwa [getD_eq_of_getElem? 0 hidx] at h2

theorem get_add_fresh (hWF : WF s) (el : T) : get (add s el).2 (add s el).1 = some el := by
  have hl1 := hWF.1
  have hl2 := hWF.2.1
  have hl3 := hWF.2.2.1
  have hl4 := hWF.2.2.2.1
  have hl5 := hWF.2.2.2.2
  by_cases hni : s.data.length = s.index.length
  · rw [add_push hni (by rw [hl1]) (by rw [hl2, hl1]) el]
    try dsimp only
    rw [get_eq_some_iff]
    refine ⟨s.data.length, data_index_eq_some_iff.mpr ⟨?_, ?_⟩, ?_⟩
    · try dsimp only
      exact List.getElem?_concat_length _ _
    · try dsimp only
      have hg : s.data.length = s.generations.length := by omega
      rw [hg]
      exact List.getElem?_concat_length _ _
    · exact List.getElem?_concat_length _ _
  · have hnlt : s.data.length < s.index.length := by omega
    rw [add_reuse hni (by omega) el]
    try dsimp only
    rw [get_eq_some_iff]
    have hnid : s.data.length < s.ids.length := by omega
    refine ⟨s.data.length, data_index_eq_some_iff.mpr ⟨?_, ?_⟩, ?_⟩
    · try dsimp only
      have hlt2 : s.ids.getD s.data.length 0 < s.index.length :=
        Nat.lt_of_lt_of_eq (hl4 _ hnid) hl1.symm
      rw [getElem?_eq_some_getD 0 hlt2, hl5 s.data.length hnid]
    · try dsimp only
      exact List.getElem?_set_self (by omega)
    · exact List.getElem?_concat_length _ _

theorem get_add_preserve (hWF : WF s) {a : SIVKey} (hv : get s a = some v) (el : T) :
    get (add s el).2 a = some v := by
  have hl1 := hWF.1
  have hl2 := hWF.2.1
  have hl3 := hWF.2.2.1
  obtain ⟨p, hdiA, hdataA⟩ := get_eq_some_iff.mp hv
  obtain ⟨hidxA, hgenA⟩ := data_index_eq_some_iff.mp hdiA
  have hpn : p < s.data.length := lt_length_of_getElem? hdataA
  have hkid : a.id < s.index.length := lt_length_of_getElem? hidxA
  have hpg : p < s.generations.length := lt_length_of_getElem? hgenA
  by_cases hni : s.data.length = s.index.length
  · rw [add_push hni (by rw [hl1]) (by rw [hl2, hl1]) el]
    try dsimp only
    rw [get_eq_some_iff]
    exact ⟨p, data_index_eq_some_iff.mpr
        ⟨by rw [List.getElem?_append_left hkid]; exact hidxA,
         by rw [List.getElem?_append_left hpg]; exact hgenA⟩,
      by rw [List.getElem?_append_left hpn]; exact hdataA⟩
  · rw [add_reuse hni (by omega) el]
    try dsimp only
    rw [get_eq_some_iff]
    refine ⟨p, data_index_eq_some_iff.mpr ⟨hidxA, ?_⟩,
      by rw [List.getElem?_append_left hpn]; exact hdataA⟩
    rw [List.getElem?_set_ne (by omega : s.data.length ≠ p)]
    exact hgenA

theorem get_remove_preserve (hWF : WF s) {a b : SIVKey} (hv : get s a = some v)
    (hne : a ≠ b) : get (remove s b).2 a = some v := by
  cases h1 : data_index s b with
  | none => rw [remove_of_dataIndex_none h1]; exact hv
  | some di =>
    cases h2 : s.data[di]? with
    | none => rw [remove_of_data_none h1 h2]; exact hv
    | some w =>
      have hl1 := hWF.1
      have hl2 := hWF.2.1
      have hl3 := hWF.2.2.1
      obtain ⟨p, hdiA, hdataA⟩ := get_eq_some_iff.mp hv
      obtain ⟨hidxA, hgenA⟩ := data_index_eq_some_iff.mp hdiA
      obtain ⟨hidxB, hgenB⟩ := data_index_eq_some_iff.mp h1
      have hpn : p < s.data.length := lt_length_of_getElem? hdataA
      have hdin : di < s.data.length := lt_length_of_getElem? h2
      have haid : s.ids.getD p 0 = a.id := live_slot_eq hWF hidxA
      have hbid : s.ids.getD di 0 = b.id := live_slot_eq hWF hidxB
      have hpL : p < s.ids.length := Nat.lt_of_lt_of_le hpn hl3
      have hdiL : di < s.ids.length := Nat.lt_of_lt_of_le hdin hl3
      have hpdi : p ≠ di := by
        intro hpe
        apply hne
        refine key_eq_of a b (by rw [← haid, hpe, hbid]) ?_
        rw [hpe] at hgenA
        rw [hgenA] at hgenB
        exact Option.some.inj hgenB
      by_cases hlt : di < s.data.length - 1
      · rw [remove_valid_swap h1 h2 hlt]
        try dsimp only
        have hlastn : s.data.length - 1 < s.data.length := by omega
        have hlastL : s.data.length - 1 < s.ids.length := Nat.lt_of_lt_of_le hlastn hl3
        have hag : (swapList s.ids di (s.data.length - 1)).getD di 0 =
            s.ids.getD (s.data.length - 1) 0 := swapList_getD_fst _ hdiL hlastL
        have hbg : (swapList s.ids di (s.data.length - 1)).getD (s.data.length - 1) 0 =
            s.ids.getD di 0 := swapList_getD_snd _ hdiL hlastL
        have hdig : di < s.generations.length := by omega
        have hlastg : s.data.length - 1 < s.generations.length := by omega
        rw [get_eq_some_iff]
        by_cases hplast : p = s.data.length - 1
        · subst hplast
          refine ⟨di, data_index_eq_some_iff.mpr ⟨?_, ?_⟩, ?_⟩
          · rw [hag, hbg, haid, hbid]
            have hidne : b.id ≠ a.id := by
              intro he
              rw [he] at hidxB
              rw [hidxA] at hidxB
              exact hpdi (Option.some.inj hidxB)
            rw [List.getElem?_set_ne hidne]
            exact List.getElem?_set_self (lt_length_of_getElem? hidxA)
          · rw [swapList_getElem?_fst hdig hlastg]
            exact hgenA
          · rw [getElem?_dropLast_lt (by rw [swapList_length]; exact hlt)]
            rw [swapList_getElem?_fst hdin hlastn]
            exact hdataA
        · refine ⟨p, data_index_eq_some_iff.mpr ⟨?_, ?_⟩, ?_⟩
          · rw [hag, hbg]
            have hAne : s.ids.getD (s.data.length - 1) 0 ≠ a.id := by
              intro he
              exact hplast (ids_inj hWF hpL hlastL (haid.trans he.symm))
            have hBne : s.ids.getD di 0 ≠ a.id := by
              intro he
              exact hpdi (ids_inj hWF hdiL hpL (he.trans haid.symm)).symm
            rw [List.getElem?_set_ne hBne, List.getElem?_set_ne hAne]
            exact hidxA
          · rw [swapList_getElem?_other hpdi hplast]
            exact hgenA
          · rw [getElem?_dropLast_lt (by rw [swapList_length]; omega)]
            rw [swapList_getElem?_other hpdi hplast]
            exact hdataA
      · rw [remove_valid_last h1 h2 hlt]
        try dsimp only
        have hdieq : di = s.data.length - 1 := by omega
        have hplast : p ≠ s.data.length - 1 := by rw [← hdieq]; exact hpdi
        rw [get_eq_some_iff]
        refine ⟨p, data_index_eq_some_iff.mpr ⟨hidxA, hgenA⟩, ?_⟩
        rw [getElem?_dropLast_lt (by omega)]
        exact hdataA

theorem dataIndex_remove_self (hWF : WF s) {di : Nat} {v : T}
    (h1 : data_index s k = some di) (h2 : s.data[di]? = some v) :
    data_index (remove s k).2 k = some (s.data.length - 1) ∧
    (remove s k).2.data.length = s.data.length - 1 := by
  have hl1 := hWF.1
  have hl2 := hWF.2.1
  have hl3 := hWF.2.2.1
  obtain ⟨hidx, hgen⟩ := data_index_eq_some_iff.mp h1
  have hdin : di < s.data.length := lt_length_of_getElem? h2
  have hdiL : di < s.ids.length := Nat.lt_of_lt_of_le hdin hl3
  have hkid_eq : s.ids.getD di 0 = k.id := live_slot_eq hWF hidx
  by_cases hlt : di < s.data.length - 1
  · rw [remove_valid_swap h1 h2 hlt]
    try dsimp only
    have hlastn : s.data.length - 1 < s.data.length := by omega
    have hlastL : s.data.length - 1 < s.ids.length := Nat.lt_of_lt_of_le hlastn hl3
    have hbg : (swapList s.ids di (s.data.length - 1)).getD (s.data.length - 1) 0 =
        s.ids.getD di 0 := swapList_getD_snd _ hdiL hlastL
    have hdig : di < s.generations.length := by omega
    have hlastg : s.data.length - 1 < s.generations.length := by omega
    constructor
    · rw [data_index_eq_some_iff]
      constructor
      · rw [hbg, hkid_eq]
        refine List.getElem?_set_self ?_
        rw [List.length_set]
        exact lt_length_of_getElem? hidx
      · rw [swapList_getElem?_snd hdig hlastg]
        exact hgen
    · simp [List.length_dropLast, swapList_length]
  · rw [remove_valid_last h1 h2 hlt]
    try dsimp only
    have hdieq : di = s.data.length - 1 := by omega
    refine ⟨data_index_eq_some_iff.mpr ⟨hdieq ▸ hidx, hdieq ▸ hgen⟩, by simp⟩

theorem get_remove_self (hWF : WF s) (k : SIVKey) : get (remove s k).2 k = none := by
  cases h1 : data_index s k with
  | none => rw [remove_of_dataIndex_none h1]; unfold get; simp only [h1]
  | some di =>
    cases h2 : s.data[di]? with
    | none => rw [remove_of_data_none h1 h2]; unfold get; simp only [h1, h2]
    | some v =>
      obtain ⟨hdi2, hlen2⟩ := dataIndex_remove_self hWF h1 h2
      rw [get_eq_none_iff]
      intro dj hdj
      rw [hdi2] at hdj
      cases hdj
      apply List.getElem?_eq_none
      rw [hlen2]

theorem remove_twice (hWF : WF s) (k : SIVKey) :
    remove (remove s k).2 k = (none, (remove s k).2) :=
  remove_of_get_none (get_remove_self hWF k)

theorem get_runOps_preserve (hWF : WF s) {a : SIVKey} {v : T} (hv : get s a = some v)
    (ops : List (Op T)) (hops : Op.remove a ∉ ops) :
    get (runOps s ops) a = some v := by
  have main : ∀ (ops : List (Op T)) (s : StableIndexVec T), WF s → get s a = some v →
      Op.remove a ∉ ops → get (runOps s ops) a = some v := by
    intro ops
    induction ops with
    | nil => intro s _ hv _; exact hv
    | cons op rest ih =>
      intro s hWF hv hops
      have hop1 : op ≠ Op.remove a := fun he => hops (by rw [he]; exact List.mem_cons_self _ _)
      have hrest : Op.remove a ∉ rest := fun hm => hops (List.mem_cons_of_mem _ hm)
      have hstep : get (runOp s op) a = some v := by
        cases op with
        | add el => exact get_add_preserve hWF hv el
        | remove b =>
          have hab : a ≠ b := fun he => hop1 (by rw [he])
          exact get_remove_preserve hWF hv hab
        | get _ => exact hv
        | iterate => exact hv
      exact ih (runOp s op) (WF_runOp hWF op) hstep hrest
  exact main ops s hWF hv hops

theorem removeOk_of_WF (hWF : WF s) (k : SIVKey) : removeOkB s k = true := by
  unfold removeOkB
  cases h1 : data_index s k with
  | none => simp only [h1]
  | some di =>
    cases h2 : s.data[di]? with
    | none => simp only [h1, h2]
    | some v =>
      simp only [h1, h2]
      have hl1 := hWF.1
      have hl2 := hWF.2.1
      have hl3 := hWF.2.2.1
      have hl4 := hWF.2.2.2.1
      have hdin : di < s.data.length := lt_length_of_getElem? h2
      have hdiL : di < s.ids.length := Nat.lt_of_lt_of_le hdin hl3
      by_cases hlt : di < s.data.length - 1
      · have hlastL : s.data.length - 1 < s.ids.length := by omega
        have g1 : (swapList s.ids di (s.data.length - 1)).getD di 0 < s.index.length := by
          rw [swapList_getD_fst _ hdiL hlastL]
          exact Nat.lt_of_lt_of_eq (hl4 _ hlastL) hl1.symm
        have g2 : (swapList s.ids di (s.data.length - 1)).getD (s.data.length - 1) 0 <
            s.index.length := by
          rw [swapList_getD_snd _ hdiL hlastL]
          exact Nat.lt_of_lt_of_eq (hl4 _ hdiL) hl1.symm
        rw [if_pos hlt]
        simp only [Bool.and_eq_true, decide_eq_true_eq]
        repeat' apply And.intro
        all_goals first
          | exact g1
          | exact g2
          | omega
      · rw [if_neg hlt]
        simp only [Bool.and_eq_true, decide_eq_true_eq]
        exact ⟨by omega, trivial⟩

theorem remove_dead_slot {di : Nat} (h1 : data_index s k = some di)
    (hge : s.data.length ≤ di) : remove s k = (none, s) :=
  remove_of_data_none h1 (List.getElem?_eq_none hge)

theorem stale_get_none (_hWF : WF s) (hst : StaleFor s k) : get s k = none := by
  obtain ⟨hkL, hd⟩ := hst
  rw [get_eq_none_iff]
  intro di hdi
  obtain ⟨hidx, hgen⟩ := data_index_eq_some_iff.mp hdi
  have hdieq : di = s.index.getD k.id 0 := (getD_eq_of_getElem? 0 hidx).symm
  cases hd with
  | inl hdead =>
    have hdd : s.data.length ≤ s.index.getD k.id 0 := hdead.1
    exact List.getElem?_eq_none (by omega)
  | inr hgt =>
    exfalso
    have hsg : slotGen s k.id = k.generation := by
      unfold slotGen
      rw [← hdieq]
      exact getD_eq_of_getElem? 0 hgen
    rw [hsg] at hgt
    omega

theorem stale_step (hWF : WF s) (hst : StaleFor s k) (op : Op T) :
    StaleFor (runOp s op) k := by
  obtain ⟨hkL, hd⟩ := hst
  have hl1 := hWF.1
  have hl2 := hWF.2.1
  have hl3 := hWF.2.2.1
  have hl4 := hWF.2.2.2.1
  have hl5 := hWF.2.2.2.2
  have hinv := index_inv hWF hkL
  cases op with
  | get _ => exact ⟨hkL, hd⟩
  | iterate => exact ⟨hkL, hd⟩
  | add el =>
    show StaleFor (add s el).2 k
    by_cases hni : s.data.length = s.index.length
    · rw [add_push hni (by rw [hl1]) (by rw [hl2, hl1]) el]
      have hkidx : k.id < s.index.length := by omega
      have e2 : (s.index ++ [s.data.length]).getD k.id 0 = s.index.getD k.id 0 :=
        getD_append_left _ hkidx
      have e3 : (s.generations ++ [0]).getD (s.index.getD k.id 0) 0 =
          s.generations.getD (s.index.getD k.id 0) 0 :=
        getD_append_left _ (by omega)
      refine ⟨?_, ?_⟩
      · try dsimp only
        simp only [List.length_append, List.length_cons, List.length_nil]
        omega
      · right
        unfold slotGen
        try dsimp only
        rw [e2, e3]
        cases hd with
        | inl hdead =>
          exfalso
          have hdd : s.data.length ≤ s.index.getD k.id 0 := hdead.1
          have hidxlt := hinv.1
          omega
        | inr hgt => exact hgt
    · have hnid : s.data.length < s.ids.length := by omega
      have hng : s.data.length < s.generations.length := by omega
      rw [add_reuse hni (by omega) el]
      by_cases hkr : k.id = s.ids.getD s.data.length 0
      · have hidxn : s.index.getD k.id 0 = s.data.length := by
          rw [hkr]; exact hl5 _ hnid
        refine ⟨hkL, ?_⟩
        right
        unfold slotGen
        try dsimp only
        rw [hidxn, getD_set_self _ _ hng]
        have hsg : slotGen s k.id = s.generations.getD s.data.length 0 := by
          unfold slotGen; rw [hidxn]
        cases hd with
        | inl hdead =>
          have hdg := hdead.2
          rw [hsg] at hdg
          omega
        | inr hgt =>
          rw [hsg] at hgt
          omega
      · have hidxne : s.index.getD k.id 0 ≠ s.data.length := by
          intro he
          apply hkr
          rw [← hinv.2, he]
        have e3 : (s.generations.set s.data.length
              (s.generations.getD s.data.length 0 + 1)).getD (s.index.getD k.id 0) 0 =
            s.generations.getD (s.index.getD k.id 0) 0 :=
          getD_set_ne _ _ (fun he => hidxne he.symm)
        refine ⟨hkL, ?_⟩
        cases hd with
        | inl hdead =>
          left
          have hdd : s.data.length ≤ s.index.getD k.id 0 := hdead.1
          constructor
          · unfold Dead
            try dsimp only
            simp only [List.length_append, List.length_cons, List.length_nil]
            omega
          · unfold slotGen
            try dsimp only
            rw [e3]
            exact hdead.2
        | inr hgt =>
          right
          unfold slotGen
          try dsimp only
          rw [e3]
          exact hgt
  | remove k2 =>
    show StaleFor (remove s k2).2 k
    cases h1 : data_index s k2 with
    | none => rw [remove_of_dataIndex_none h1]; exact ⟨hkL, hd⟩
    | some di =>
      cases h2 : s.data[di]? with
      | none => rw [remove_of_data_none h1 h2]; exact ⟨hkL, hd⟩
      | some v =>
        obtain ⟨hidxB, hgenB⟩ := data_index_eq_some_iff.mp h1
        have hdin : di < s.data.length := lt_length_of_getElem? h2
        have hdiL : di < s.ids.length := by omega
        have hbid : s.ids.getD di 0 = k2.id := live_slot_eq hWF hidxB
        by_cases hlt : di < s.data.length - 1
        · rw [remove_valid_swap h1 h2 hlt]
          have hlastn : s.data.length - 1 < s.data.length := by omega
          have hlastL : s.data.length - 1 < s.ids.length := by omega
          have hag : (swapList s.ids di (s.data.length - 1)).getD di 0 =
              s.ids.getD (s.data.length - 1) 0 := swapList_getD_fst _ hdiL hlastL
          have hbg : (swapList s.ids di (s.data.length - 1)).getD (s.data.length - 1) 0 =
              s.ids.getD di 0 := swapList_getD_snd _ hdiL hlastL
          have hABne : s.ids.getD (s.data.length - 1) 0 ≠ s.ids.getD di 0 :=
            fun he => (by omega : di ≠ s.data.length - 1) (ids_inj hWF hdiL hlastL he.symm)
          refine ⟨?_, ?_⟩
          · try dsimp only
            rw [swapList_length]
            exact hkL
          · by_cases hkB : k.id = s.ids.getD di 0
            · have hidxB' : s.index.getD k.id 0 = di := by
                rw [hkB]; exact hl5 _ hdiL
              have hgt : k.generation < s.generations.getD di 0 := by
                cases hd with
                | inl hdead =>
                  exfalso
                  have hdd : s.data.length ≤ s.index.getD k.id 0 := hdead.1
                  omega
                | inr hgt2 =>
                  have hsg : slotGen s k.id = s.generations.getD di 0 := by
                    unfold slotGen; rw [hidxB']
                  rw [hsg] at hgt2; exact hgt2
              right
              unfold slotGen
              try dsimp only
              rw [hag, hbg, hkB]
              rw [getD_set_self _ _ (by rw [List.length_set, hl1]; exact hl4 _ hdiL)]
              rw [swapList_getD_snd _ (by omega) (by omega)]
              exact hgt
            · by_cases hkA : k.id = s.ids.getD (s.data.length - 1) 0
              · have hidxA' : s.index.getD k.id 0 = s.data.length - 1 := by
                  rw [hkA]; exact hl5 _ hlastL
                have hgt : k.generation < s.generations.getD (s.data.length - 1) 0 := by
                  cases hd with
                  | inl hdead =>
                    exfalso
                    have hdd : s.data.length ≤ s.index.getD k.id 0 := hdead.1
                    omega
                  | inr hgt2 =>
                    have hsg : slotGen s k.id = s.generations.getD (s.data.length - 1) 0 := by
                      unfold slotGen; rw [hidxA']
                    rw [hsg] at hgt2; exact hgt2
                right
                unfold slotGen
                try dsimp only
                rw [hag, hbg, hkA]
                rw [getD_set_ne _ _ (Ne.symm hABne)]
                rw [getD_set_self _ _ (by rw [hl1]; exact hl4 _ hlastL)]
                rw [swapList_getD_fst _ (by omega) (by omega)]
                exact hgt
              · have hpne1 : s.index.getD k.id 0 ≠ di := fun he => hkB (by rw [← hinv.2, he])
                have hpne2 : s.index.getD k.id 0 ≠ s.data.length - 1 :=
                  fun he => hkA (by rw [← hinv.2, he])
                have e3 : (swapList s.generations di (s.data.length - 1)).getD
                      (s.index.getD k.id 0) 0 =
                    s.generations.getD (s.index.getD k.id 0) 0 :=
                  swapList_getD_other _ hpne1 hpne2
                cases hd with
                | inl hdead =>
                  left
                  have hdd : s.data.length ≤ s.index.getD k.id 0 := hdead.1
                  constructor
                  · unfold Dead
                    try dsimp only
                    rw [List.length_dropLast, swapList_length, hag, hbg]
                    rw [getD_set_ne _ _ (fun he => hkB he.symm)]
                    rw [getD_set_ne _ _ (fun he => hkA he.symm)]
                    omega
                  · unfold slotGen
                    try dsimp only
                    rw [hag, hbg]
                    rw [getD_set_ne _ _ (fun he => hkB he.symm)]
                    rw [getD_set_ne _ _ (fun he => hkA he.symm)]
                    rw [e3]
                    exact hdead.2
                | inr hgt =>
                  right
                  unfold slotGen
                  try dsimp only
                  rw [hag, hbg]
                  rw [getD_set_ne _ _ (fun he => hkB he.symm)]
                  rw [getD_set_ne _ _ (fun he => hkA he.symm)]
                  rw [e3]
                  exact hgt
        · rw [remove_valid_last h1 h2 hlt]
          refine ⟨hkL, ?_⟩
          cases hd with
          | inl hdead =>
            left
            have hdd : s.data.length ≤ s.index.getD k.id 0 := hdead.1
            refine ⟨?_, hdead.2⟩
            unfold Dead
            try dsimp only
            rw [List.length_dropLast]
            omega
          | inr hgt => right; exact hgt

theorem stale_forever (hWF : WF s) (hst : StaleFor s k) (ops : List (Op T)) :
    get (runOps s ops) k = none := by
  have main : ∀ (ops : List (Op T)) (s : StableIndexVec T), WF s → StaleFor s k →
      get (runOps s ops) k = none := by
    intro ops
    induction ops with
    | nil => intro s hWF hst; exact stale_get_none hWF hst
    | cons op rest ih =>
      intro s hWF hst
      exact ih (runOp s op) (WF_runOp hWF op) (stale_step hWF hst op)
  exact main ops s hWF hst

end SIV

/-! ### Structural lemmas for the non-checking variant -/

namespace FC

variable {T : Type} {s : FastContainer T} {v el : T} {idx di : Nat}

theorem fc_get_eq_some_iff :
    get s idx = some v ↔ ∃ di, s.index[idx]? = some di ∧ s.data[di]? = some v := by
  unfold get
  cases h : s.index[idx]? <;> simp [h]

theorem fc_get_eq_none_iff :
    get s idx = none ↔ ∀ di, s.index[idx]? = some di → s.data[di]? = none := by
  unfold get
  cases h : s.index[idx]? <;> simp [h]

theorem fc_remove_of_index_none (h : s.index[idx]? = none) : remove s idx = (none, s) := by
  unfold remove; simp only [h]

theorem fc_remove_of_data_none (h1 : s.index[idx]? = some di) (h2 : s.data[di]? = none) :
    remove s idx = (none, s) := by
  unfold remove; simp only [h1, h2]

theorem fc_remove_valid_swap (h1 : s.index[idx]? = some di) (h2 : s.data[di]? = some v)
    (hlt : di < s.data.length - 1) :
    remove s idx = (some v,
      { index := (s.index.set ((swapList s.ids di (s.data.length - 1)).getD di 0) di).set
            ((swapList s.ids di (s.data.length - 1)).getD (s.data.length - 1) 0)
            (s.data.length - 1)
      , ids := swapList s.ids di (s.data.length - 1)
      , data := (swapList s.data di (s.data.length - 1)).dropLast }) := by
  have hdi : di < s.data.length := lt_length_of_getElem? h2
  have hlast : s.data.length - 1 < s.data.length := by omega
  unfold remove
  simp only [h1, h2, swapList_length, if_pos hlt]
  rw [swapList_getElem?_snd hdi hlast, h2]

theorem fc_remove_valid_last (h1 : s.index[idx]? = some di) (h2 : s.data[di]? = some v)
    (hge : ¬ di < s.data.length - 1) :
    remove s idx = (some v, { s with data := s.data.dropLast }) := by
  have hdi : di < s.data.length := lt_length_of_getElem? h2
  have hdieq : di = s.data.length - 1 := by omega
  unfold remove
  simp only [h1, h2, if_neg hge]
  rw [← hdieq, h2]

theorem fc_remove_fst : (remove s idx).1 = get s idx := by
  cases h1 : s.index[idx]? with
  | none => rw [fc_remove_of_index_none h1]; unfold get; simp only [h1]
  | some di =>
    cases h2 : s.data[di]? with
    | none => rw [fc_remove_of_data_none h1 h2]; unfold get; simp only [h1, h2]
    | some v =>
      have hget : get s idx = some v := by unfold get; simp only [h1, h2]
      rw [hget]
      by_cases hlt : di < s.data.length - 1
      · rw [fc_remove_valid_swap h1 h2 hlt]
      · rw [fc_remove_valid_last h1 h2 hlt]

theorem fc_remove_of_get_none (h : get s idx = none) : remove s idx = (none, s) := by
  cases h1 : s.index[idx]? with
  | none => exact fc_remove_of_index_none h1
  | some di =>
    cases h2 : s.data[di]? with
    | none => exact fc_remove_of_data_none h1 h2
    | some v =>
      exfalso
      have hs : get s idx = some v := by unfold get; simp only [h1, h2]
      rw [h] at hs; cases hs

theorem fc_WF_empty : WF (empty T) := by
  refine ⟨rfl, Nat.le_refl 0, ?_, ?_⟩ <;> intro i hi <;> exact absurd hi (by simp [empty])

theorem fc_ids_inj (h : WF s) {i j : Nat} (hi : i < s.ids.length) (hj : j < s.ids.length)
    (he : s.ids.getD i 0 = s.ids.getD j 0) : i = j := by
  calc i = s.index.getD (s.ids.getD i 0) 0 := (h.2.2.2 i hi).symm
    _ = s.index.getD (s.ids.getD j 0) 0 := by rw [he]
    _ = j := h.2.2.2 j hj

theorem fc_index_inv (h : WF s) {slot : Nat} (hs : slot < s.ids.length) :
    s.index.getD slot 0 < s.ids.length ∧ s.ids.getD (s.index.getD slot 0) 0 = slot := by
  have hinj : Function.Injective
      (fun i : Fin s.ids.length =>
        (⟨s.ids.getD i.val 0, h.2.2.1 i.val i.isLt⟩ : Fin s.ids.length)) := by
    intro a b hab
    exact Fin.ext (fc_ids_inj h a.isLt b.isLt (congrArg Fin.val hab))
  obtain ⟨i, hi⟩ := Finite.surjective_of_injective hinj ⟨slot, hs⟩
  have hval : s.ids.getD i.val 0 = slot := congrArg Fin.val hi
  have hidx : s.index.getD slot 0 = i.val := by
    rw [← hval]; exact h.2.2.2 i.val i.isLt
  exact ⟨by rw [hidx]; exact i.isLt, by rw [hidx, hval]⟩

theorem fc_add_push (hni : s.data.length = s.index.length)
    (hidl : s.ids.length = s.index.length) (el : T) :
    add s el = (s.index.length,
      { index := s.index ++ [s.index.length]
      , ids := s.ids ++ [s.index.length]
      , data := s.data ++ [el] }) := by
  unfold add
  simp only [if_pos hni]
  have hkid : (s.ids ++ [s.index.length]).getD s.data.length 0 = s.index.length := by
    have he : s.data.length = s.ids.length := by rw [hni, hidl]
    rw [he, getD_concat_length]
  rw [hkid]

theorem fc_add_reuse (hne : ¬ s.data.length = s.index.length) (el : T) :
    add s el = (s.ids.getD s.data.length 0,
      { index := s.index, ids := s.ids, data := s.data ++ [el] }) := by
  unfold add
  simp only [if_neg hne]

theorem fc_WF_add (h : WF s) (el : T) : WF (add s el).2 := by
  have hl1 := h.1
  have hl3 := h.2.1
  have hl4 := h.2.2.1
  have hl5 := h.2.2.2
  by_cases hni : s.data.length = s.index.length
  · rw [fc_add_push hni (by rw [hl1]) el]
    refine ⟨?_, ?_, ?_, ?_⟩
    · try dsimp only
      simp [hl1]
    · try dsimp only
      simp only [List.length_append, List.length_cons, List.length_nil]
      omega
    · intro i hi
      try dsimp only at hi ⊢
      simp only [List.length_append, List.length_cons, List.length_nil] at hi ⊢
      rcases Nat.lt_or_ge i s.ids.length with hlt | hge
      · rw [getD_append_left _ hlt]
        have := hl4 i hlt
        omega
      · have hieq : i = s.ids.length := by omega
        subst hieq
        rw [getD_concat_length]
        omega
    · intro i hi
      try dsimp only at hi ⊢
      simp only [List.length_append, List.length_cons, List.length_nil] at hi
      rcases Nat.lt_or_ge i s.ids.length with hlt | hge
      · rw [getD_append_left _ hlt]
        rw [getD_append_left _ (Nat.lt_of_lt_of_eq (hl4 i hlt) hl1.symm)]
        exact hl5 i hlt
      · have hieq : i = s.ids.length := by omega
        subst hieq
        rw [getD_concat_length, getD_concat_length]
        omega
  · rw [fc_add_reuse hni el]
    refine ⟨hl1, ?_, hl4, hl5⟩
    try dsimp only
    simp only [List.length_append, List.length_cons, List.length_nil]
    omega

theorem fc_WF_remove (h : WF s) (idx : Nat) : WF (remove s idx).2 := by
  cases h1 : s.index[idx]? with
  | none => rw [fc_remove_of_index_none h1]; exact h
  | some di =>
    cases h2 : s.data[di]? with
    | none => rw [fc_remove_of_data_none h1 h2]; exact h
    | some v =>
      have hl1 := h.1
      have hl3 := h.2.1
      have hl4 := h.2.2.1
      have hl5 := h.2.2.2
      have hdi : di < s.data.length := lt_length_of_getElem? h2
      by_cases hlt : di < s.data.length - 1
      · rw [fc_remove_valid_swap h1 h2 hlt]
        have hdiL : di < s.ids.length := Nat.lt_of_lt_of_le hdi hl3
        have hlastn : s.data.length - 1 < s.data.length := by omega
        have hlastL : s.data.length - 1 < s.ids.length := Nat.lt_of_lt_of_le hlastn hl3
        have hne : di ≠ s.data.length - 1 := by omega
        have hswlen : (swapList s.ids di (s.data.length - 1)).length = s.ids.length :=
          swapList_length _ _ _
        have hag : (swapList s.ids di (s.data.length - 1)).getD di 0 =
            s.ids.getD (s.data.length - 1) 0 := swapList_getD_fst _ hdiL hlastL
        have hbg : (swapList s.ids di (s.data.length - 1)).getD (s.data.length - 1) 0 =
            s.ids.getD di 0 := swapList_getD_snd _ hdiL hlastL
        have haL : s.ids.getD (s.data.length - 1) 0 < s.ids.length := hl4 _ hlastL
        have hbL : s.ids.getD di 0 < s.ids.length := hl4 _ hdiL
        have hab : s.ids.getD (s.data.length - 1) 0 ≠ s.ids.getD di 0 :=
          fun he => hne (fc_ids_inj h hdiL hlastL he.symm)
        refine ⟨?_, ?_, ?_, ?_⟩
        · try dsimp only
          simp [hswlen, hl1]
        · try dsimp only
          simp only [List.length_dropLast, swapList_length, hswlen]
          omega
        · intro i hi
          try dsimp only at hi ⊢
          rw [hswlen] at hi ⊢
          by_cases hidi : i = di
          · subst hidi; rw [hag]; exact haL
          · by_cases hilast : i = s.data.length - 1
            · subst hilast; rw [hbg]; exact hbL
            · rw [swapList_getD_other _ hidi hilast]
              exact hl4 i hi
        · intro i hi
          try dsimp only at hi ⊢
          rw [hswlen] at hi
          rw [hag, hbg]
          by_cases hidi : i = di
          · subst hidi
            rw [hag]
            rw [getD_set_ne _ _ (Ne.symm hab)]
            exact getD_set_self _ _ (Nat.lt_of_lt_of_eq haL hl1.symm)
          · by_cases hilast : i = s.data.length - 1
            · subst hilast
              rw [hbg]
              refine getD_set_self _ _ ?_
              rw [List.length_set]
              exact Nat.lt_of_lt_of_eq hbL hl1.symm
            · rw [swapList_getD_other _ hidi hilast]
              have hCA : s.ids.getD i 0 ≠ s.ids.getD (s.data.length - 1) 0 :=
                fun he => hilast (fc_ids_inj h hi hlastL he)
              have hCB : s.ids.getD i 0 ≠ s.ids.getD di 0 :=
                fun he => hidi (fc_ids_inj h hi hdiL he)
              rw [getD_set_ne _ _ (Ne.symm hCB), getD_set_ne _ _ (Ne.symm hCA)]
              exact hl5 i hi
      · rw [fc_remove_valid_last h1 h2 hlt]
        refine ⟨hl1, ?_, hl4, hl5⟩
        try dsimp only
        simp only [List.length_dropLast]
        omega

theorem fc_WF_runOp (h : WF s) (op : Op T) : WF (runOp s op) := by
  cases op with
  | add el => exact fc_WF_add h el
  | remove k => exact fc_WF_remove h k
  | get k => exact h

theorem fc_WF_runOps (h : WF s) (ops : List (Op T)) : WF (runOps s ops) := by
  induction ops generalizing s with
  | nil => exact h
  | cons op rest ih => exact ih (fc_WF_runOp h op)

theorem fc_reachable_WF (h : Reachable s) : WF s := by
  obtain ⟨ops, rfl⟩ := h
  exact fc_WF_runOps fc_WF_empty ops

theorem fc_live_slot_eq (hWF : WF s) {p : Nat} (hidx : s.index[idx]? = some p) :
    s.ids.getD p 0 = idx := by
  have hkid : idx < s.ids.length := by
    have hk := lt_length_of_getElem? hidx
    rwa [hWF.1] at hk
  have h2 := (fc_index_inv hWF hkid).2
  rwa [getD_eq_of_getElem? 0 hidx] at h2

theorem fc_get_add_fresh (hWF : WF s) (el : T) : get (add s el).2 (add s el).1 = some el := by
  have hl1 := hWF.1
  have hl3 := hWF.2.1
  have hl4 := hWF.2.2.1
  have hl5 := hWF.2.2.2
  by_cases hni : s.data.length = s.index.length
  · rw [fc_add_push hni (by rw [hl1]) el]
    try dsimp only
    rw [fc_get_eq_some_iff]
    refine ⟨s.index.length, ?_, ?_⟩
    · exact List.getElem?_concat_length _ _
    · rw [← hni]
      exact List.getElem?_concat_length _ _
  · have hnlt : s.data.length < s.index.length := by omega
    rw [fc_add_reuse hni el]
    try dsimp only
    rw [fc_get_eq_some_iff]
    have hnid : s.data.length < s.ids.length := by omega
    refine ⟨s.data.length, ?_, ?_⟩
    · try dsimp only
      have hlt2 : s.ids.getD s.data.length 0 < s.index.length :=
        Nat.lt_of_lt_of_eq (hl4 _ hnid) hl1.symm
      rw [getElem?_eq_some_getD 0 hlt2, hl5 s.data.length hnid]
    · exact List.getElem?_concat_length _ _

theorem fc_get_add_preserve (hWF : WF s) {a : Nat} (hv : get s a = some v) (el : T) :
    get (add s el).2 a = some v := by
  have hl1 := hWF.1
  obtain ⟨p, hidxA, hdataA⟩ := fc_get_eq_some_iff.mp hv
  have hpn : p < s.data.length := lt_length_of_getElem? hdataA
  have hkid : a < s.index.length := lt_length_of_getElem? hidxA
  by_cases hni : s.data.length = s.index.length
  · rw [fc_add_push hni (by rw [hl1]) el]
    try dsimp only
    rw [fc_get_eq_some_iff]
    exact ⟨p, by rw [List.getElem?_append_left hkid]; exact hidxA,
      by rw [List.getElem?_append_left hpn]; exact hdataA⟩
  · rw [fc_add_reuse hni el]
    try dsimp only
    rw [fc_get_eq_some_iff]
    exact ⟨p, hidxA, by rw [List.getElem?_append_left hpn]; exact hdataA⟩

theorem fc_get_remove_preserve (hWF : WF s) {a b : Nat} (hv : get s a = some v)
    (hne : a ≠ b) : get (remove s b).2 a = some v := by
  cases h1 : s.index[b]? with
  | none => rw [fc_remove_of_index_none h1]; exact hv
  | some di =>
    cases h2 : s.data[di]? with
    | none => rw [fc_remove_of_data_none h1 h2]; exact hv
    | some w =>
      have hl1 := hWF.1
      have hl3 := hWF.2.1
      obtain ⟨p, hidxA, hdataA⟩ := fc_get_eq_some_iff.mp hv
      have hpn : p < s.data.length := lt_length_of_getElem? hdataA
      have hdin : di < s.data.length := lt_length_of_getElem? h2
      have haid : s.ids.getD p 0 = a := fc_live_slot_eq hWF hidxA
      have hbid : s.ids.getD di 0 = b := fc_live_slot_eq hWF h1
      have hpL : p < s.ids.length := Nat.lt_of_lt_of_le hpn hl3
      have hdiL : di < s.ids.length := Nat.lt_of_lt_of_le hdin hl3
      have hpdi : p ≠ di := by
        intro hpe
        apply hne
        rw [← haid, hpe, hbid]
      by_cases hlt : di < s.data.length - 1
      · rw [fc_remove_valid_swap h1 h2 hlt]
        try dsimp only
        have hlastn : s.data.length - 1 < s.data.length := by omega
        have hlastL : s.data.length - 1 < s.ids.length := Nat.lt_of_lt_of_le hlastn hl3
        have hag : (swapList s.ids di (s.data.length - 1)).getD di 0 =
            s.ids.getD (s.data.length - 1) 0 := swapList_getD_fst _ hdiL hlastL
        have hbg : (swapList s.ids di (s.data.length - 1)).getD (s.data.length - 1) 0 =
            s.ids.getD di 0 := swapList_getD_snd _ hdiL hlastL
        rw [fc_get_eq_some_iff]
        by_cases hplast : p = s.data.length - 1
        · subst hplast
          refine ⟨di, ?_, ?_⟩
          · rw [hag, hbg, haid, hbid]
            have hidne : b ≠ a := Ne.symm hne
            rw [List.getElem?_set_ne hidne]
            exact List.getElem?_set_self (lt_length_of_getElem? hidxA)
          · rw [getElem?_dropLast_lt (by rw [swapList_length]; exact hlt)]
            rw [swapList_getElem?_fst hdin hlastn]
            exact hdataA
        · refine ⟨p, ?_, ?_⟩
          · rw [hag, hbg]
            have hAne : s.ids.getD (s.data.length - 1) 0 ≠ a := by
              intro he
              exact hplast (fc_ids_inj hWF hpL hlastL (haid.trans he.symm))
            have hBne : s.ids.getD di 0 ≠ a := by
              intro he
              exact hpdi (fc_ids_inj hWF hdiL hpL (he.trans haid.symm)).symm
            rw [List.getElem?_set_ne hBne, List.getElem?_set_ne hAne]
            exact hidxA
          · rw [getElem?_dropLast_lt (by rw [swapList_length]; omega)]
            rw [swapList_getElem?_other hpdi hplast]
            exact hdataA
      · rw [fc_remove_valid_last h1 h2 hlt]
        try dsimp only
        have hdieq : di = s.data.length - 1 := by omega
        have hplast : p ≠ s.data.length - 1 := by rw [← hdieq]; exact hpdi
        rw [fc_get_eq_some_iff]
        refine ⟨p, hidxA, ?_⟩
        rw [getElem?_dropLast_lt (by omega)]
        exact hdataA

theorem fc_index_remove_self (hWF : WF s) {di : Nat} {v : T}
    (h1 : s.index[idx]? = some di) (h2 : s.data[di]? = some v) :
    (remove s idx).2.index[idx]? = some (s.data.length - 1) ∧
    (remove s idx).2.data.length = s.data.length - 1 := by
  have hl1 := hWF.1
  have hl3 := hWF.2.1
  have hdin : di < s.data.length := lt_length_of_getElem? h2
  have hdiL : di < s.ids.length := Nat.lt_of_lt_of_le hdin hl3
  have hkid_eq : s.ids.getD di 0 = idx := fc_live_slot_eq hWF h1
  by_cases hlt : di < s.data.length - 1
  · rw [fc_remove_valid_swap h1 h2 hlt]
    try dsimp only
    have hlastn : s.data.length - 1 < s.data.length := by omega
    have hlastL : s.data.length - 1 < s.ids.length := Nat.lt_of_lt_of_le hlastn hl3
    have hbg : (swapList s.ids di (s.data.length - 1)).getD (s.data.length - 1) 0 =
        s.ids.getD di 0 := swapList_getD_snd _ hdiL hlastL
    constructor
    · rw [hbg, hkid_eq]
      refine List.getElem?_set_self ?_
      rw [List.length_set]
      exact lt_length_of_getElem? h1
    · simp [List.length_dropLast, swapList_length]
  · rw [fc_remove_valid_last h1 h2 hlt]
    try dsimp only
    have hdieq : di = s.data.length - 1 := by omega
    exact ⟨hdieq ▸ h1, by simp⟩

theorem fc_get_remove_self (hWF : WF s) (idx : Nat) : get (remove s idx).2 idx = none := by
  cases h1 : s.index[idx]? with
  | none => rw [fc_remove_of_index_none h1]; unfold get; simp only [h1]
  | some di =>
    cases h2 : s.data[di]? with
    | none => rw [fc_remove_of_data_none h1 h2]; unfold get; simp only [h1, h2]
    | some v =>
      obtain ⟨hdi2, hlen2⟩ := fc_index_remove_self hWF h1 h2
      rw [fc_get_eq_none_iff]
      intro dj hdj
      rw [hdi2] at hdj
      cases hdj
      apply List.getElem?_eq_none
      rw [hlen2]

theorem fc_remove_twice (hWF : WF s) (idx : Nat) :
    remove (remove s idx).2 idx = (none, (remove s idx).2) :=
  fc_remove_of_get_none (fc_get_remove_self hWF idx)

theorem fc_get_runOps_preserve (hWF : WF s) {a : Nat} {v : T} (hv : get s a = some v)
    (ops : List (Op T)) (hops : Op.remove a ∉ ops) :
    get (runOps s ops) a = some v := by
  have main : ∀ (ops : List (Op T)) (s : FastContainer T), WF s → get s a = some v →
      Op.remove a ∉ ops → get (runOps s ops) a = some v := by
    intro ops
    induction ops with
    | nil => intro s _ hv _; exact hv
    | cons op rest ih =>
      intro s hWF hv hops
      have hop1 : op ≠ Op.remove a := fun he => hops (by rw [he]; exact List.mem_cons_self _ _)
      have hrest : Op.remove a ∉ rest := fun hm => hops (List.mem_cons_of_mem _ hm)
      have hstep : get (runOp s op) a = some v := by
        cases op with
        | add el => exact fc_get_add_preserve hWF hv el
        | remove b =>
          have hab : a ≠ b := fun he => hop1 (by rw [he])
          exact fc_get_remove_preserve hWF hv hab
        | get _ => exact hv
      exact ih (runOp s op) (fc_WF_runOp hWF op) hstep hrest
  exact main ops s hWF hv hops

theorem fc_removeOk_of_WF (hWF : WF s) (idx : Nat) : removeOkB s idx = true := by
  unfold removeOkB
  cases h1 : s.index[idx]? with
  | none => simp only [h1]
  | some di =>
    cases h2 : s.data[di]? with
    | none => simp only [h1, h2]
    | some v =>
      simp only [h1, h2]
      have hl1 := hWF.1
      have hl3 := hWF.2.1
      have hl4 := hWF.2.2.1
      have hdin : di < s.data.length := lt_length_of_getElem? h2
      have hdiL : di < s.ids.length := Nat.lt_of_lt_of_le hdin hl3
      by_cases hlt : di < s.data.length - 1
      · have hlastL : s.data.length - 1 < s.ids.length := by omega
        have g1 : (swapList s.ids di (s.data.length - 1)).getD di 0 < s.index.length := by
          rw [swapList_getD_fst _ hdiL hlastL]
          exact Nat.lt_of_lt_of_eq (hl4 _ hlastL) hl1.symm
        have g2 : (swapList s.ids di (s.data.length - 1)).getD (s.data.length - 1) 0 <
            s.index.length := by
          rw [swapList_getD_snd _ hdiL hlastL]
          exact Nat.lt_of_lt_of_eq (hl4 _ hdiL) hl1.symm
        rw [if_pos hlt]
        simp only [Bool.and_eq_true, decide_eq_true_eq]
        repeat' apply And.intro
        all_goals first
          | exact g1
          | exact g2
          | omega
      · rw [if_neg hlt]
        simp only [Bool.and_eq_true, decide_eq_true_eq]
        exact ⟨by omega, trivial⟩

theorem fc_remove_dead_slot {di : Nat} (h1 : s.index[idx]? = some di)
    (hge : s.data.length ≤ di) : remove s idx = (none, s) :=
  fc_remove_of_data_none h1 (List.getElem?_eq_none hge)

end FC

/-! ### Claim theorems -/

/-- C1 (code bug): after `add 1; add 2; remove (0,0); add 3`, the iterator
yields exactly as many pairs as live elements, but the pair it yields for
the element `2` carries the key `(1,1)` even though the valid key for that
element is `(1,0)`: `get (1,1)` is absent, so the claimed property
"every produced pair `(key, v)` satisfies `get(key) == Some(v)`" fails.
`Iter::next` reads `generations[id]` (slot-indexed) where the rest of the
container treats `generations` as indexed by dense position. -/
theorem claim1_iterator_stale_key :
    Scenario.c1state = ⟨[1, 0], [0, 1], [1, 0], [2, 3]⟩ ∧
    SIV.iterPairs Scenario.c1state = [(⟨1, 1⟩, some 2), (⟨0, 0⟩, some 3)] ∧
    SIV.get Scenario.c1state ⟨1, 1⟩ = none ∧
    SIV.get Scenario.c1state ⟨1, 0⟩ = some 2 ∧
    (SIV.iterPairs Scenario.c1state).length = Scenario.c1state.data.length := by
  decide

/-- C2: on every reachable state of either variant, every live dense
position maps through `ids` and back through `index` to itself, and every
slot whose `index` entry is a live position maps back to itself. -/
theorem claim2_bidirectional_mapping :
    (∀ (T : Type) (s : SIV.StableIndexVec T), SIV.Reachable s →
      (∀ i, i < s.data.length → s.index.getD (s.ids.getD i 0) 0 = i) ∧
      (∀ slot, slot < s.index.length → s.index.getD slot 0 < s.data.length →
        s.ids.getD (s.index.getD slot 0) 0 = slot)) ∧
    (∀ (T : Type) (s : FC.FastContainer T), FC.Reachable s →
      (∀ i, i < s.data.length → s.index.getD (s.ids.getD i 0) 0 = i) ∧
      (∀ slot, slot < s.index.length → s.index.getD slot 0 < s.data.length →
        s.ids.getD (s.index.getD slot 0) 0 = slot)) := by
  constructor
  · intro T s hs
    have hWF := SIV.reachable_WF hs
    have hlen := hWF.2.2.1
    have hidxlen := hWF.1
    constructor
    · intro i hi
      exact hWF.2.2.2.2 i (by omega)
    · intro slot hslot _
      exact (SIV.index_inv hWF (by omega)).2
  · intro T s hs
    have hWF := FC.fc_reachable_WF hs
    have hlen := hWF.2.1
    have hidxlen := hWF.1
    constructor
    · intro i hi
      exact hWF.2.2.2 i (by omega)
    · intro slot hslot _
      exact (FC.fc_index_inv hWF (by omega)).2

/-- Witness for C2 at the concrete reachable state `c1state`. -/
theorem claim2_witness :
    Scenario.c1state.index.getD (Scenario.c1state.ids.getD 0 0) 0 = 0 :=
  (claim2_bidirectional_mapping.1 Nat Scenario.c1state
    ⟨[.add 1, .add 2, .remove ⟨0, 0⟩, .add 3], rfl⟩).1 0 (by decide)

/-- C3: in both variants, removing a live handle `h2` leaves `get h1` of
any other live handle `h1` unchanged. -/
theorem claim3_stability_under_unrelated_removal :
    (∀ (T : Type) (s : SIV.StableIndexVec T) (h1 h2 : SIV.SIVKey) (v1 : T),
      SIV.Reachable s → h1 ≠ h2 →
      SIV.get s h1 = some v1 → (SIV.get s h2).isSome →
      SIV.get (SIV.remove s h2).2 h1 = some v1) ∧
    (∀ (T : Type) (s : FC.FastContainer T) (h1 h2 : Nat) (v1 : T),
      FC.Reachable s → h1 ≠ h2 →
      FC.get s h1 = some v1 → (FC.get s h2).isSome →
      FC.get (FC.remove s h2).2 h1 = some v1) := by
  constructor
  · intro T s a b v1 hs hne hv _
    exact SIV.get_remove_preserve (SIV.reachable_WF hs) hv hne
  · intro T s a b v1 hs hne hv _
    exact FC.fc_get_remove_preserve (FC.fc_reachable_WF hs) hv hne

/-- Witness for C3: removing `(1,0)` from the four-element container
leaves `get (0,0)` returning `1`. -/
theorem claim3_witness :
    SIV.get (SIV.remove Scenario.c6s0 ⟨1, 0⟩).2 ⟨0, 0⟩ = some 1 :=
  claim3_stability_under_unrelated_removal.1 Nat Scenario.c6s0 ⟨0, 0⟩ ⟨1, 0⟩ 1
    ⟨[.add 1, .add 2, .add 3, .add 4], rfl⟩ (by decide) (by decide) (by decide)

/-- C4: in both variants, the handle returned by `add` immediately
round-trips through `get` to the inserted element, and keeps doing so
under any further operation sequence that never removes that handle. -/
theorem claim4_handle_validity_round_trip :
    (∀ (T : Type) (s : SIV.StableIndexVec T) (el : T) (ops : List (SIV.Op T)),
      SIV.Reachable s → SIV.Op.remove (SIV.add s el).1 ∉ ops →
      SIV.get (SIV.add s el).2 (SIV.add s el).1 = some el ∧
      SIV.get (SIV.runOps (SIV.add s el).2 ops) (SIV.add s el).1 = some el) ∧
    (∀ (T : Type) (s : FC.FastContainer T) (el : T) (ops : List (FC.Op T)),
      FC.Reachable s → FC.Op.remove (FC.add s el).1 ∉ ops →
      FC.get (FC.add s el).2 (FC.add s el).1 = some el ∧
      FC.get (FC.runOps (FC.add s el).2 ops) (FC.add s el).1 = some el) := by
  constructor
  · intro T s el ops hs hops
    have hWF := SIV.reachable_WF hs
    have hfresh := SIV.get_add_fresh hWF el
    exact ⟨hfresh, SIV.get_runOps_preserve (SIV.WF_add hWF el) hfresh ops hops⟩
  · intro T s el ops hs hops
    have hWF := FC.fc_reachable_WF hs
    have hfresh := FC.fc_get_add_fresh hWF el
    exact ⟨hfresh, FC.fc_get_runOps_preserve (FC.fc_WF_add hWF el) hfresh ops hops⟩

/-- Witness for C4: adding `7` to the empty container and then adding `8`
leaves the first handle resolving to `7`. -/
theorem claim4_witness :
    SIV.get (SIV.add (SIV.empty Nat) 7).2 (SIV.add (SIV.empty Nat) 7).1 = some 7 ∧
    SIV.get (SIV.runOps (SIV.add (SIV.empty Nat) 7).2 [.add 8])
      (SIV.add (SIV.empty Nat) 7).1 = some 7 :=
  claim4_handle_validity_round_trip.1 Nat (SIV.empty Nat) 7 [.add 8]
    ⟨[], rfl⟩ (by decide)

/-- C5: in both variants, `remove` returns exactly what `get` returns, an
invalid handle leaves the state untouched, and a second `remove` with the
same handle returns absent without changing the state. -/
theorem claim5_remove_error_atomicity :
    (∀ (T : Type) (s : SIV.StableIndexVec T) (k : SIV.SIVKey),
      (SIV.remove s k).1 = SIV.get s k ∧
      (SIV.get s k = none → SIV.remove s k = (none, s)) ∧
      (SIV.Reachable s →
        SIV.remove (SIV.remove s k).2 k = (none, (SIV.remove s k).2))) ∧
    (∀ (T : Type) (s : FC.FastContainer T) (k : Nat),
      (FC.remove s k).1 = FC.get s k ∧
      (FC.get s k = none → FC.remove s k = (none, s)) ∧
      (FC.Reachable s →
        FC.remove (FC.remove s k).2 k = (none, (FC.remove s k).2))) := by
  constructor
  · intro T s k
    exact ⟨SIV.remove_fst, SIV.remove_of_get_none,
      fun hs => SIV.remove_twice (SIV.reachable_WF hs) k⟩
  · intro T s k
    exact ⟨FC.fc_remove_fst, FC.fc_remove_of_get_none,
      fun hs => FC.fc_remove_twice (FC.fc_reachable_WF hs) k⟩

/-- Witness for C5: double removal of `(1,0)` from the four-element
container. -/
theorem claim5_witness :
    SIV.remove (SIV.remove Scenario.c6s0 ⟨1, 0⟩).2 ⟨1, 0⟩ =
      (none, (SIV.remove Scenario.c6s0 ⟨1, 0⟩).2) :=
  (claim5_remove_error_atomicity.1 Nat Scenario.c6s0 ⟨1, 0⟩).2.2
    ⟨[.add 1, .add 2, .add 3, .add 4], rfl⟩

/-- C6: in the staleness-rejection scenario the two new handles are
`(3,1)` and `(1,1)` — never equal to the removed `(1,0)` and `(3,0)` even
though the slot numbers coincide — and the removed handles resolve to
absent from their removal onward, under every continuation of the
operation sequence (in particular across the two re-occupying adds). -/
theorem claim6_staleness_rejection :
    Scenario.c6add5.1 = ⟨3, 1⟩ ∧ Scenario.c6add6.1 = ⟨1, 1⟩ ∧
    Scenario.c6add5.1 ≠ ⟨1, 0⟩ ∧ Scenario.c6add5.1 ≠ ⟨3, 0⟩ ∧
    Scenario.c6add6.1 ≠ ⟨1, 0⟩ ∧ Scenario.c6add6.1 ≠ ⟨3, 0⟩ ∧
    Scenario.c6add5.1.id = (⟨3, 0⟩ : SIV.SIVKey).id ∧
    Scenario.c6add6.1.id = (⟨1, 0⟩ : SIV.SIVKey).id ∧
    (∀ ops : List (SIV.Op Nat),
      SIV.get (SIV.runOps Scenario.c6s1 ops) ⟨1, 0⟩ = none) ∧
    (∀ ops : List (SIV.Op Nat),
      SIV.get (SIV.runOps Scenario.c6s2 ops) ⟨3, 0⟩ = none) := by
  refine ⟨by decide, by decide, by decide, by decide, by decide, by decide,
    by decide, by decide, ?_, ?_⟩
  · intro ops
    exact SIV.stale_forever (by decide) (by decide) ops
  · intro ops
    exact SIV.stale_forever (by decide) (by decide) ops

/-- C7 counterexample: in `c7state` slots `0` and `1` are both freed
(their `index` rows point at or past the live region), the lowest such
slot is `0`, yet `add` reuses slot `1` — the one whose row sits at
position `dense.length` — so "reuse the lowest such slot" is false. -/
theorem claim7_counterexample :
    Scenario.c7state.data.length < Scenario.c7state.index.length ∧
    Scenario.c7state.data.length ≤ Scenario.c7state.index.getD 0 0 ∧
    Scenario.c7state.data.length ≤ Scenario.c7state.index.getD 1 0 ∧
    (SIV.add Scenario.c7state 40).1.id = 1 ∧ (0 : Nat) < 1 := by
  decide

/-- C7 (amended): in both variants, whenever the slot table is longer than
the dense array, `add` reuses the slot whose row sits at position
`dense.length` (not necessarily the lowest freed slot) without growing the
slot table; otherwise it allocates the brand-new slot `slot_table.length`,
growing the table by one. -/
theorem claim7_slot_reuse_amended :
    (∀ (T : Type) (s : SIV.StableIndexVec T) (el : T), SIV.Reachable s →
      (s.data.length < s.index.length →
        (SIV.add s el).1.id = s.ids.getD s.data.length 0 ∧
        (SIV.add s el).2.index.length = s.index.length) ∧
      (s.data.length = s.index.length →
        (SIV.add s el).1.id = s.index.length ∧
        (SIV.add s el).2.index.length = s.index.length + 1)) ∧
    (∀ (T : Type) (s : FC.FastContainer T) (el : T), FC.Reachable s →
      (s.data.length < s.index.length →
        (FC.add s el).1 = s.ids.getD s.data.length 0 ∧
        (FC.add s el).2.index.length = s.index.length) ∧
      (s.data.length = s.index.length →
        (FC.add s el).1 = s.index.length ∧
        (FC.add s el).2.index.length = s.index.length + 1)) := by
  constructor
  · intro T s el hs
    have hWF := SIV.reachable_WF hs
    have hl1 := hWF.1
    have hl2 := hWF.2.1
    constructor
    · intro hlt
      rw [SIV.add_reuse (by omega) (by omega) el]
      exact ⟨rfl, rfl⟩
    · intro heq
      rw [SIV.add_push heq (by rw [hl1]) (by rw [hl2, hl1]) el]
      refine ⟨rfl, ?_⟩
      try dsimp only
      simp
  · intro T s el hs
    have hWF := FC.fc_reachable_WF hs
    have hl1 := hWF.1
    constructor
    · intro hlt
      rw [FC.fc_add_reuse (by omega) el]
      exact ⟨rfl, rfl⟩
    · intro heq
      rw [FC.fc_add_push heq (by rw [hl1]) el]
      refine ⟨rfl, ?_⟩
      try dsimp only
      simp
/-- Witness for the amended C7 at `c7state`. -/
theorem claim7_witness :
    (SIV.add Scenario.c7state 40).1.id =
      Scenario.c7state.ids.getD Scenario.c7state.data.length 0 ∧
    (SIV.add Scenario.c7state 40).2.index.length = Scenario.c7state.index.length :=
  (claim7_slot_reuse_amended.1 Nat Scenario.c7state 40
    ⟨[.add 10, .add 20, .add 30, .remove ⟨0, 0⟩, .remove ⟨1, 0⟩], rfl⟩).1 (by decide)

/-- C8 counterexample: the variant of `remove` without the second fix-up
is observationally distinguishable from the implemented one — after
`add 1; add 2`, removing `(0,0)` and then calling `get (0,0)` gives
different results in the two versions. -/
theorem claim8_counterexample :
    SIV.get (SIV.remove Scenario.c8state ⟨0, 0⟩).2 ⟨0, 0⟩ ≠
      SIV.get (SIV.removeNoFix Scenario.c8state ⟨0, 0⟩).2 ⟨0, 0⟩ := by
  decide

/-- C8 (amended): the second fix-up is necessary, not unnecessary: both
versions return the same removed element, but the implemented `remove`
leaves the removed key resolving to absent while the fix-up-free variant
resurrects it onto the swapped-in element `2`. -/
theorem claim8_fixup_necessary :
    (SIV.remove Scenario.c8state ⟨0, 0⟩).1 =
      (SIV.removeNoFix Scenario.c8state ⟨0, 0⟩).1 ∧
    SIV.get (SIV.remove Scenario.c8state ⟨0, 0⟩).2 ⟨0, 0⟩ = none ∧
    SIV.get (SIV.removeNoFix Scenario.c8state ⟨0, 0⟩).2 ⟨0, 0⟩ = some 2 := by
  decide

/-- C9: on every reachable state of either variant the defensive
assertion `data.len() <= index.len()` at the start of `add` holds, so its
panic branch is unreachable through the public API. -/
theorem claim9_assert_unreachable :
    (∀ (T : Type) (s : SIV.StableIndexVec T), SIV.Reachable s → SIV.addAssertOk s) ∧
    (∀ (T : Type) (s : FC.FastContainer T), FC.Reachable s → FC.addAssertOk s) := by
  constructor
  · intro T s hs
    have hWF := SIV.reachable_WF hs
    have hl1 := hWF.1
    have hl3 := hWF.2.2.1
    show s.data.length ≤ s.index.length
    omega
  · intro T s hs
    have hWF := FC.fc_reachable_WF hs
    have hl1 := hWF.1
    have hl3 := hWF.2.1
    show s.data.length ≤ s.index.length
    omega

/-- Witness for C9 at the churned state `c7state`. -/
theorem claim9_witness : SIV.addAssertOk Scenario.c7state :=
  claim9_assert_unreachable.1 Nat Scenario.c7state
    ⟨[.add 10, .add 20, .add 30, .remove ⟨0, 0⟩, .remove ⟨1, 0⟩], rfl⟩

/-- C10: on every reachable state of either variant, `remove` is
panic-free for every handle (no index underflow, all unchecked accesses in
bounds), and when a handle's slot maps to a dense position at or past
`data.len()` the `data.get` guard returns absent before `data.len() - 1`
is computed, leaving the state untouched. -/
theorem claim10_remove_total :
    (∀ (T : Type) (s : SIV.StableIndexVec T) (k : SIV.SIVKey), SIV.Reachable s →
      SIV.removeOkB s k = true ∧
      (∀ di, SIV.data_index s k = some di → s.data.length ≤ di →
        SIV.remove s k = (none, s))) ∧
    (∀ (T : Type) (s : FC.FastContainer T) (k : Nat), FC.Reachable s →
      FC.removeOkB s k = true ∧
      (∀ di, s.index[k]? = some di → s.data.length ≤ di →
        FC.remove s k = (none, s))) := by
  constructor
  · intro T s k hs
    refine ⟨SIV.removeOk_of_WF (SIV.reachable_WF hs) k, ?_⟩
    intro di h1 hge
    exact SIV.remove_dead_slot h1 hge
  · intro T s k hs
    refine ⟨FC.fc_removeOk_of_WF (FC.fc_reachable_WF hs) k, ?_⟩
    intro di h1 hge
    exact FC.fc_remove_dead_slot h1 hge

/-- Witness for C10: removing from a container with zero live elements
but an allocated slot row returns absent and leaves the state unchanged. -/
theorem claim10_witness :
    SIV.removeOkB Scenario.c10state ⟨0, 0⟩ = true ∧
    SIV.remove Scenario.c10state ⟨0, 0⟩ = (none, Scenario.c10state) := by
  have happ := claim10_remove_total.1 Nat Scenario.c10state ⟨0, 0⟩
    ⟨[.add 1, .remove ⟨0, 0⟩], rfl⟩
  exact ⟨happ.1, happ.2 0 (by decide) (by decide)⟩
